import Mathlib

/-!
Verification of the SSD1680 e-paper driver
(src/components/ssd1680_epaper/ssd1680_epaper.cpp) against its
natural-language specification.

The driver is embedded shallowly:
* the command/data byte protocol emitted by the driver is modelled as a
  trace of events (`Ev`), transcribed statement by statement from the
  C++ of `init_display_`, `display_frame_` and `full_update_`;
* the frame buffer is a `List Nat` of byte values (each < 256);
* the driver lifecycle (`setup` / `update`) is a state machine on
  `DriverState`;
* the busy-wait loop of `wait_until_idle_` is a total recursive function
  over an abstract busy-line input `Nat → Bool`;
* the chip-select framing of the bus layer (`data_` / `send_data_`) is
  modelled at a finer granularity as `BusEv` traces.
-/

namespace Ssd1680

/-- `WIDTH` from the source: display width in pixels. -/
def WIDTH : Nat := 128

/-- `HEIGHT` from the source: display height in pixels. -/
def HEIGHT : Nat := 296

/-- `ALLSCREEN_BYTES = (WIDTH * HEIGHT) / 8` from the source. -/
def ALLSCREEN_BYTES : Nat := WIDTH * HEIGHT / 8

/-- 8-bit bitwise complement, the effect of C++ `~b` on a `uint8_t`
value `b < 256`. -/
def inv8 (b : Nat) : Nat := 0xFF ^^^ b % 256

/-- One observable event of the driver's protocol layer.
`cmd c` is `command_(c)`, `dat d` is `data_(d)`, `rst b` is
`reset_pin_->digital_write(b)`, `delayMs n` is `delay(n)`, `waitIdle`
marks a call to `wait_until_idle_()` (modelled separately, emits no
command/data bytes), and `busyWait t` marks an inline busy-poll loop
with timeout `t` ms (also emits no command/data bytes). -/
inductive Ev where
  | cmd (c : Nat)
  | dat (d : Nat)
  | rst (level : Bool)
  | delayMs (ms : Nat)
  | waitIdle
  | busyWait (timeoutMs : Nat)
deriving DecidableEq, Repr

/-- Trace of `init_display_` (source lines 124-238), transcribed in
order.  `rc` is whether a reset line is configured
(`reset_pin_ != nullptr`), `bc` whether a busy line is configured.
Logging statements emit nothing. -/
def init_display_trace (rc bc : Bool) : List Ev :=
  (if rc then
    [Ev.rst true, Ev.delayMs 10, Ev.rst false, Ev.delayMs 10,
     Ev.rst true, Ev.delayMs 10]
   else [])
  ++ [Ev.delayMs 100]
  ++ [Ev.cmd 0x12, Ev.delayMs 20]
  ++ (if bc then [Ev.busyWait 2000] else [])
  ++ [Ev.cmd 0x01, Ev.dat 0x27, Ev.dat 0x01, Ev.dat 0x00,
      Ev.cmd 0x11, Ev.dat 0x03,
      Ev.cmd 0x44, Ev.dat 0x00, Ev.dat 0x0F,
      Ev.cmd 0x45, Ev.dat 0x00, Ev.dat 0x00, Ev.dat 0x27, Ev.dat 0x01,
      Ev.cmd 0x3C, Ev.dat 0x05,
      Ev.cmd 0x18, Ev.dat 0x80,
      Ev.cmd 0x4E, Ev.dat 0x00,
      Ev.cmd 0x4F, Ev.dat 0x00, Ev.dat 0x00]

/-- Trace of `full_update_` (source lines 240-266). -/
def full_update_trace : List Ev :=
  [Ev.cmd 0x22, Ev.dat 0xF7, Ev.cmd 0x20, Ev.busyWait 5000]

/-- Trace of `display_frame_` (source lines 268-342), transcribed in
order; `rc` is whether a reset line is configured.  The two `for`
loops over `ALLSCREEN_BYTES` become maps over `List.range
ALLSCREEN_BYTES`; `buffer.getD i 0` is the read `buffer_[i]`. -/
def display_frame_trace (rc : Bool) (buffer : List Nat) : List Ev :=
  (if rc then [Ev.rst false, Ev.delayMs 10, Ev.rst true, Ev.delayMs 10]
   else [])
  ++ [Ev.waitIdle]
  ++ [Ev.cmd 0x12, Ev.delayMs 10, Ev.waitIdle]
  ++ [Ev.cmd 0x01, Ev.dat 0x27, Ev.dat 0x01, Ev.dat 0x00,
      Ev.cmd 0x11, Ev.dat 0x03,
      Ev.cmd 0x44, Ev.dat 0x00, Ev.dat 0x0F,
      Ev.cmd 0x45, Ev.dat 0x00, Ev.dat 0x00, Ev.dat 0x27, Ev.dat 0x01,
      Ev.cmd 0x4E, Ev.dat 0x00,
      Ev.cmd 0x4F, Ev.dat 0x00, Ev.dat 0x00]
  ++ [Ev.cmd 0x24]
  ++ (List.range ALLSCREEN_BYTES).map (fun i => Ev.dat (inv8 (buffer.getD i 0)))
  ++ [Ev.cmd 0x4E, Ev.dat 0x00,
      Ev.cmd 0x4F, Ev.dat 0x00, Ev.dat 0x00]
  ++ [Ev.cmd 0x26]
  ++ List.replicate ALLSCREEN_BYTES (Ev.dat 0x00)
  ++ [Ev.waitIdle]
  ++ full_update_trace

/-- The run of data bytes at the head of a trace: the payload that
immediately follows a command, ending at the first non-data event. -/
def dataRun : List Ev → List Nat
  | Ev.dat d :: rest => d :: dataRun rest
  | _ => []

/-- The remainder of a trace after the first `cmd c` event, `none` if
the trace contains no `cmd c`. -/
def afterCmd (c : Nat) : List Ev → Option (List Ev)
  | [] => none
  | Ev.cmd c2 :: rest => if c2 = c then some rest else afterCmd c rest
  | _ :: rest => afterCmd c rest

/-- Whether a trace contains a `cmd c` event. -/
def hasCmd (c : Nat) : List Ev → Bool
  | [] => false
  | Ev.cmd c2 :: rest => c2 = c || hasCmd c rest
  | _ :: rest => hasCmd c rest

/-- Capture a trace as an ordered list of (opcode, payload) pairs: each
`cmd` event paired with the data bytes that immediately follow it;
all other events are transparent. -/
def capturePairs : List Ev → List (Nat × List Nat)
  | [] => []
  | Ev.cmd c :: rest => (c, dataRun rest) :: capturePairs rest
  | _ :: rest => capturePairs rest

/-- The sequence of levels written to the reset line during a trace. -/
def resetWrites (t : List Ev) : List Bool :=
  t.filterMap (fun e => match e with | Ev.rst b => some b | _ => none)

/-- Width as reported by `get_width_internal()`.  Modelled from the
spec: the accessor is declared in the header file, which is not part
of the available sources; the spec fixes the logical width at 128. -/
def get_width_internal : Int := (WIDTH : Int)

/-- Height as reported by `get_height_internal()`.  Modelled from the
spec: the accessor is declared in the header file, which is not part
of the available sources; the spec fixes the logical height at 296. -/
def get_height_internal : Int := (HEIGHT : Int)

/-- `draw_absolute_pixel_internal` (source lines 388-403) acting on a
frame buffer of byte values.  `c` is `color.is_on()`.  Writes are
`List.set`; `buf.getD pos 0` is the read `buffer_[pos]`; C++
`buffer_[pos] &= ~bit` on a `uint8_t` is masking with the 8-bit
complement `0xFF ^^^ bit`. -/
def draw_absolute_pixel_internal (buf : List Nat) (x y : Int) (c : Bool) :
    List Nat :=
  if x < 0 ∨ get_width_internal ≤ x ∨ y < 0 ∨ get_height_internal ≤ y then
    buf
  else
    let pos : Nat := y.toNat * (WIDTH / 8) + x.toNat / 8
    let bit : Nat := 0x80 >>> (x.toNat % 8)
    if ALLSCREEN_BYTES ≤ pos then buf
    else if c then buf.set pos (buf.getD pos 0 ||| bit)
    else buf.set pos (buf.getD pos 0 &&& (0xFF ^^^ bit))

/-- Read back one pixel by the spec's addressing formula
(`index = y * (width / 8) + x / 8`, `bitmask = 0x80 >> (x mod 8)`):
true iff the addressed bit is set. -/
def get_pixel (buf : List Nat) (x y : Int) : Bool :=
  buf.getD (y.toNat * (WIDTH / 8) + x.toNat / 8) 0 &&&
    (0x80 >>> (x.toNat % 8)) ≠ 0

/-- Driver state: the one-time-configuration flag `initialized_` (the
spec's `configured` flag) and the frame buffer `buffer_`. -/
structure DriverState where
  configured : Bool
  buffer : List Nat
deriving DecidableEq, Repr

/-- State after `setup()` (source lines 17-52): flag cleared, buffer of
`ALLSCREEN_BYTES` bytes all set to `0xFF` by
`memset(this->buffer_, 0xFF, ALLSCREEN_BYTES)`. -/
def setupState : DriverState :=
  { configured := false, buffer := List.replicate ALLSCREEN_BYTES 0xFF }

/-- `do_update_()` runs the user's drawing lambda, which mutates the
buffer only through `draw_absolute_pixel_internal`; a drawing pass is
therefore a list of `(x, y, on)` pixel operations folded over the
buffer. -/
def applyDraws (ops : List (Int × Int × Bool)) (buf : List Nat) : List Nat :=
  ops.foldl (fun b o => draw_absolute_pixel_internal b o.1 o.2.1 o.2.2) buf

/-- `update()` (source lines 344-386): runs `init_display_` and sets
the flag when the flag is still clear, then runs the drawing pass
(`do_update_`) and `display_frame_`.  Returns the new state, the
events of the one-time configuration (empty when skipped), and the
events of the write-and-refresh phase, in emission order. -/
def update (rc bc : Bool) (draw : List (Int × Int × Bool))
    (s : DriverState) : DriverState × List Ev × List Ev :=
  if s.configured then
    let s2 : DriverState := { s with buffer := applyDraws draw s.buffer }
    (s2, [], display_frame_trace rc s2.buffer)
  else
    let s1 : DriverState := { s with configured := true }
    let s2 : DriverState := { s1 with buffer := applyDraws draw s1.buffer }
    (s2, init_display_trace rc bc, display_frame_trace rc s2.buffer)

/-- A sequence of `update()` calls, one per drawing pass in `draws`;
collects for each call the pair (configuration events, write-phase
events). -/
def runUpdates (rc bc : Bool) (draws : List (List (Int × Int × Bool)))
    (s : DriverState) : DriverState × List (List Ev × List Ev) :=
  match draws with
  | [] => (s, [])
  | d :: ds =>
    let u := update rc bc d s
    let rest := runUpdates rc bc ds u.1
    (rest.1, (u.2.1, u.2.2) :: rest.2)

/-- Outcome of `wait_until_idle_`: total time spent (ms) and whether
the timeout path was taken. -/
structure WaitOutcome where
  elapsedMs : Nat
  timedOut : Bool
deriving DecidableEq, Repr

/-- The polling loop of `wait_until_idle_` (source lines 91-100):
`busy t` is the level read from the busy pin `t` ms after the loop
started; while the pin reads busy, the loop returns with a timeout
once more than 10000 ms have elapsed, and otherwise sleeps 10 ms and
polls again; when the pin reads idle a final `delay(10)` runs. -/
def waitLoop (busy : Nat → Bool) (elapsed : Nat) : WaitOutcome :=
  if busy elapsed then
    if 10000 < elapsed then { elapsedMs := elapsed, timedOut := true }
    else waitLoop busy (elapsed + 10)
  else { elapsedMs := elapsed + 10, timedOut := false }
termination_by 10011 - elapsed

/-- `wait_until_idle_` (source lines 80-101): with no busy pin
configured, a fixed `delay(100)`; otherwise the polling loop from
time 0. -/
def wait_until_idle_ (busyPin : Option (Nat → Bool)) : WaitOutcome :=
  match busyPin with
  | none => { elapsedMs := 100, timedOut := false }
  | some busy => waitLoop busy 0

/-- One event of the bus-transport layer: a chip-select assertion
(`this->enable()`), one byte on the wire (`this->write_byte` or one
byte of `this->write_array`), or a chip-select release
(`this->disable()`). -/
inductive BusEv where
  | enable
  | wbyte (b : Nat)
  | disable
deriving DecidableEq, Repr

/-- Bus events of one `data_(d)` call (source lines 110-115): a scoped
transaction around a single byte. -/
def data_bus (d : Nat) : List BusEv :=
  [BusEv.enable, BusEv.wbyte d, BusEv.disable]

/-- Bus events of one `send_data_(data, len)` call (source lines
117-122): a single scoped transaction around the whole block. -/
def send_data_bus (ds : List Nat) : List BusEv :=
  [BusEv.enable] ++ ds.map BusEv.wbyte ++ [BusEv.disable]

/-- Bus events of the primary bit-plane transfer loop in
`display_frame_` (source lines 321-323): one `data_` call per byte,
`ALLSCREEN_BYTES` times. -/
def primary_plane_bus (buffer : List Nat) : List BusEv :=
  ((List.range ALLSCREEN_BYTES).map
    (fun i => data_bus (inv8 (buffer.getD i 0)))).flatten

/-- The bytes that cross the wire in a bus trace, in order. -/
def wireBytes (t : List BusEv) : List Nat :=
  t.filterMap (fun e => match e with | BusEv.wbyte b => some b | _ => none)

/-- The documented one-time configuration sequence as (opcode, payload)
pairs: software reset; driver output control (height-1 = 295
little-endian, then mode byte); data entry mode; RAM X window; RAM Y
window; border waveform; temperature sensor; RAM X counter; RAM Y
counter. -/
def initCapture : List (Nat × List Nat) :=
  [(0x12, []),
   (0x01, [0x27, 0x01, 0x00]),
   (0x11, [0x03]),
   (0x44, [0x00, 0x0F]),
   (0x45, [0x00, 0x00, 0x27, 0x01]),
   (0x3C, [0x05]),
   (0x18, [0x80]),
   (0x4E, [0x00]),
   (0x4F, [0x00, 0x00])]

/-! ### Helper lemmas -/

theorem shiftRight_eq_pow (r : Nat) (hr : r < 8) :
    (128 : Nat) >>> r = 2 ^ (7 - r) := by
  revert hr
  revert r
  decide

theorem testBit_255 (k : Nat) : Nat.testBit 255 k = decide (k < 8) := by
  rw [show (255 : Nat) = 2 ^ 8 - 1 from rfl, Nat.testBit_two_pow_sub_one]

theorem testBit_shift (r k : Nat) (hr : r < 8) :
    ((128 : Nat) >>> r).testBit k = decide (7 - r = k) := by
  rw [shiftRight_eq_pow r hr, Nat.testBit_two_pow]

theorem set_testBit (b r k : Nat) (hr : r < 8) :
    (b ||| 128 >>> r).testBit k = if k = 7 - r then true else b.testBit k := by
  rw [Nat.testBit_or, testBit_shift r k hr]
  by_cases hk : k = 7 - r
  · simp [hk]
  · have hk2 : ¬(7 - r = k) := fun h => hk h.symm
    simp [hk, hk2]

theorem clear_testBit (b r k : Nat) (hr : r < 8) (hb : b < 256) :
    (b &&& (0xFF ^^^ 128 >>> r)).testBit k
      = if k = 7 - r then false else b.testBit k := by
  rw [show (0xFF : Nat) = 255 from rfl, Nat.testBit_and, Nat.testBit_xor,
    testBit_255, testBit_shift r k hr]
  by_cases hk : k = 7 - r
  · have hk8 : k < 8 := by omega
    simp [hk, hk8]
    exact fun _ => by omega
  · have hk2 : ¬(7 - r = k) := fun h => hk h.symm
    by_cases hk8 : k < 8
    · simp [hk, hk2, hk8]
    · have hbk : b.testBit k = false := by
        apply Nat.testBit_lt_two_pow
        calc b < 256 := hb
        _ = 2 ^ 8 := rfl
        _ ≤ 2 ^ k := Nat.pow_le_pow_right (by omega) (by omega)
      simp [hk, hk2, hk8, hbk]

theorem mask_or_and_ne (b r : Nat) (hr : r < 8) :
    (b ||| 128 >>> r) &&& (128 >>> r) ≠ 0 := by
  intro h0
  have ht : ((b ||| 128 >>> r) &&& (128 >>> r)).testBit (7 - r) = true := by
    rw [Nat.testBit_and, Nat.testBit_or, testBit_shift r (7 - r) hr]
    simp
  rw [h0] at ht
  simp at ht

theorem mask_clear_and_eq (b r : Nat) (hr : r < 8) :
    (b &&& (0xFF ^^^ 128 >>> r)) &&& (128 >>> r) = 0 := by
  apply Nat.eq_of_testBit_eq
  intro k
  rw [show (0xFF : Nat) = 255 from rfl, Nat.testBit_and, Nat.testBit_and,
    Nat.testBit_xor, testBit_255, testBit_shift r k hr, Nat.zero_testBit]
  by_cases hk : 7 - r = k
  · have hk8 : k < 8 := by omega
    simp [hk, hk8]
  · simp [hk]

theorem pos_lt_bytes (x y : Int) (hx0 : 0 ≤ x) (hx : x < get_width_internal)
    (hy0 : 0 ≤ y) (hy : y < get_height_internal) :
    y.toNat * (WIDTH / 8) + x.toNat / 8 < ALLSCREEN_BYTES := by
  simp only [get_width_internal, get_height_internal, WIDTH, HEIGHT,
    ALLSCREEN_BYTES] at *
  omega

theorem draw_eq_set (buf : List Nat) (x y : Int) (c : Bool)
    (hx0 : 0 ≤ x) (hx : x < get_width_internal)
    (hy0 : 0 ≤ y) (hy : y < get_height_internal) :
    draw_absolute_pixel_internal buf x y c
      = buf.set (y.toNat * (WIDTH / 8) + x.toNat / 8)
          (if c then
            buf.getD (y.toNat * (WIDTH / 8) + x.toNat / 8) 0 |||
              128 >>> (x.toNat % 8)
           else
            buf.getD (y.toNat * (WIDTH / 8) + x.toNat / 8) 0 &&&
              (0xFF ^^^ 128 >>> (x.toNat % 8))) := by
  have hguard :
      ¬(x < 0 ∨ get_width_internal ≤ x ∨ y < 0 ∨ get_height_internal ≤ y) := by
    push_neg
    exact ⟨hx0, hx, hy0, hy⟩
  have hpos := pos_lt_bytes x y hx0 hx hy0 hy
  unfold draw_absolute_pixel_internal
  rw [if_neg hguard]
  simp only []
  rw [if_neg (not_le.mpr hpos)]
  cases c <;> simp

theorem getD_mem_of_lt (l : List Nat) (i : Nat) (h : i < l.length) :
    l.getD i 0 ∈ l := by
  rw [List.getD_eq_getElem?_getD, List.getElem?_eq_getElem h]
  exact List.getElem_mem h

theorem getD_set_self (l : List Nat) (i : Nat) (v : Nat) (h : i < l.length) :
    (l.set i v).getD i 0 = v := by
  rw [List.getD_eq_getElem?_getD, List.getElem?_set_self h]
  rfl

theorem getD_set_ne (l : List Nat) (i j : Nat) (v : Nat) (h : i ≠ j) :
    (l.set i v).getD j 0 = l.getD j 0 := by
  rw [List.getD_eq_getElem?_getD, List.getElem?_set_ne h,
    ← List.getD_eq_getElem?_getD]

theorem afterCmd_append (c : Nat) (p q : List Ev) (h : hasCmd c p = false) :
    afterCmd c (p ++ q) = afterCmd c q := by
  induction p with
  | nil => rfl
  | cons e p ih =>
    rw [List.cons_append]
    cases e with
    | cmd c2 =>
      rcases Bool.or_eq_false_iff.mp h with ⟨h1, h2⟩
      show (if c2 = c then some (p ++ q) else afterCmd c (p ++ q))
          = afterCmd c q
      rw [if_neg (of_decide_eq_false h1), ih h2]
    | dat d => exact ih h
    | rst b => exact ih h
    | delayMs n => exact ih h
    | waitIdle => exact ih h
    | busyWait n => exact ih h

theorem hasCmd_map_dat (c : Nat) (ds : List Nat) :
    hasCmd c (ds.map Ev.dat) = false := by
  induction ds with
  | nil => rfl
  | cons d ds ih => exact ih

theorem dataRun_map_dat (ds : List Nat) (e : Ev) (r : List Ev)
    (h : ∀ d, e ≠ Ev.dat d) :
    dataRun (ds.map Ev.dat ++ e :: r) = ds := by
  induction ds with
  | nil =>
    cases e with
    | dat d => exact absurd rfl (h d)
    | cmd c => rfl
    | rst b => rfl
    | delayMs n => rfl
    | waitIdle => rfl
    | busyWait n => rfl
  | cons d ds ih =>
    show d :: dataRun (ds.map Ev.dat ++ e :: r) = d :: ds
    rw [ih]

theorem resetWrites_append (p q : List Ev) :
    resetWrites (p ++ q) = resetWrites p ++ resetWrites q :=
  List.filterMap_append ..

theorem resetWrites_map_dat (ds : List Nat) :
    resetWrites (ds.map Ev.dat) = [] := by
  induction ds with
  | nil => rfl
  | cons d ds ih => exact ih

theorem resetWrites_replicate_dat (n d : Nat) :
    resetWrites (List.replicate n (Ev.dat d)) = [] := by
  rw [← List.map_replicate]
  exact resetWrites_map_dat _

theorem update_of_configured (rc bc : Bool) (d : List (Int × Int × Bool))
    (s : DriverState) (h : s.configured = true) :
    update rc bc d s
      = ({ s with buffer := applyDraws d s.buffer }, [],
         display_frame_trace rc (applyDraws d s.buffer)) := by
  unfold update
  rw [if_pos h]

theorem update_of_not_configured (rc bc : Bool) (d : List (Int × Int × Bool))
    (s : DriverState) (h : s.configured = false) :
    update rc bc d s
      = ({ configured := true, buffer := applyDraws d s.buffer },
         init_display_trace rc bc,
         display_frame_trace rc (applyDraws d s.buffer)) := by
  unfold update
  rw [if_neg (by rw [h]; exact Bool.false_ne_true)]

theorem runUpdates_configured (rc bc : Bool)
    (ds : List (List (Int × Int × Bool))) (s : DriverState)
    (h : s.configured = true) :
    (runUpdates rc bc ds s).1.configured = true ∧
    (∀ o ∈ (runUpdates rc bc ds s).2, o.1 = []) ∧
    (runUpdates rc bc ds s).2.map Prod.fst = List.replicate ds.length [] ∧
    ∀ o ∈ (runUpdates rc bc ds s).2, ∃ b, o.2 = display_frame_trace rc b := by
  induction ds generalizing s with
  | nil =>
    refine ⟨h, ?_, rfl, ?_⟩ <;> intro o ho <;> simp [runUpdates] at ho
  | cons d ds ih =>
    have hu := update_of_configured rc bc d s h
    obtain ⟨h1, h2, h3, h4⟩ :=
      ih { s with buffer := applyDraws d s.buffer } h
    have hstep : runUpdates rc bc (d :: ds) s
        = ((runUpdates rc bc ds { s with buffer := applyDraws d s.buffer }).1,
           ([], display_frame_trace rc (applyDraws d s.buffer)) ::
            (runUpdates rc bc ds
              { s with buffer := applyDraws d s.buffer }).2) := by
      conv_lhs => rw [runUpdates]
      rw [hu]
    rw [hstep]
    refine ⟨h1, ?_, ?_, ?_⟩
    · intro o ho
      rcases List.mem_cons.mp ho with ho | ho
      · rw [ho]
      · exact h2 o ho
    · simp only [List.map_cons, h3, List.length_cons, List.replicate_succ]
    · intro o ho
      rcases List.mem_cons.mp ho with ho | ho
      · exact ⟨_, by rw [ho]⟩
      · exact h4 o ho

theorem resetWrites_map_dat_f (f : Nat → Nat) (l : List Nat) :
    resetWrites (l.map (fun i => Ev.dat (f i))) = [] := by
  induction l with
  | nil => rfl
  | cons a l ih => exact ih

theorem resetWrites_frame_false (buffer : List Nat) :
    resetWrites (display_frame_trace false buffer) = [] := by
  unfold display_frame_trace full_update_trace
  rw [if_neg (by decide)]
  simp only [List.nil_append, resetWrites_append, resetWrites_map_dat_f,
    resetWrites_replicate_dat]
  rfl

theorem frame_true_split (buffer : List Nat) :
    display_frame_trace true buffer
      = [Ev.rst false, Ev.delayMs 10, Ev.rst true, Ev.delayMs 10]
        ++ display_frame_trace false buffer := by
  unfold display_frame_trace
  rw [if_pos rfl, if_neg (by decide)]
  rfl

theorem resetWrites_frame_true (buffer : List Nat) :
    resetWrites (display_frame_trace true buffer) = [false, true] := by
  rw [frame_true_split, resetWrites_append, resetWrites_frame_false,
    List.append_nil]
  rfl

theorem waitLoop_busy_forever (busy : Nat → Bool) (h : ∀ t, busy t = true) :
    ∀ n e, 10010 - e = n → e % 10 = 0 → e ≤ 10010 →
      waitLoop busy e = { elapsedMs := 10010, timedOut := true } := by
  intro n
  induction n using Nat.strong_induction_on with
  | _ n ih =>
    intro e hn hmod hle
    rw [waitLoop, h e]
    rw [if_pos rfl]
    by_cases he : 10000 < e
    · rw [if_pos he, show e = 10010 from by omega]
    · rw [if_neg he]
      exact ih (10010 - (e + 10)) (by omega) (e + 10) rfl (by omega) (by omega)

theorem draw_length (buf : List Nat) (x y : Int) (c : Bool) :
    (draw_absolute_pixel_internal buf x y c).length = buf.length := by
  unfold draw_absolute_pixel_internal
  by_cases h : x < 0 ∨ get_width_internal ≤ x ∨ y < 0 ∨ get_height_internal ≤ y
  · rw [if_pos h]
  · rw [if_neg h]
    simp only []
    by_cases h2 : ALLSCREEN_BYTES ≤ y.toNat * (WIDTH / 8) + x.toNat / 8
    · rw [if_pos h2]
    · rw [if_neg h2]
      cases c <;> simp

theorem applyDraws_length (ops : List (Int × Int × Bool)) (buf : List Nat) :
    (applyDraws ops buf).length = buf.length := by
  induction ops generalizing buf with
  | nil => rfl
  | cons o ops ih =>
    show (applyDraws ops
      (draw_absolute_pixel_internal buf o.1 o.2.1 o.2.2)).length = _
    rw [ih, draw_length]

theorem update_buffer_length (rc bc : Bool) (d : List (Int × Int × Bool))
    (s : DriverState) :
    (update rc bc d s).1.buffer.length = s.buffer.length := by
  cases hs : s.configured
  · rw [update_of_not_configured rc bc d s hs]
    exact applyDraws_length d s.buffer
  · rw [update_of_configured rc bc d s hs]
    exact applyDraws_length d s.buffer

theorem runUpdates_buffer_length (rc bc : Bool)
    (ds : List (List (Int × Int × Bool))) (s : DriverState) :
    (runUpdates rc bc ds s).1.buffer.length = s.buffer.length := by
  induction ds generalizing s with
  | nil => rfl
  | cons d ds ih =>
    show (runUpdates rc bc ds (update rc bc d s).1).1.buffer.length = _
    rw [ih, update_buffer_length]

theorem wireBytes_append (p q : List BusEv) :
    wireBytes (p ++ q) = wireBytes p ++ wireBytes q :=
  List.filterMap_append ..

theorem count_enable_data_bus_flatten (l : List Nat) :
    ((l.map (fun d => data_bus d)).flatten).count BusEv.enable
      = l.length := by
  induction l with
  | nil => rfl
  | cons d l ih =>
    show (data_bus d ++ (l.map (fun d => data_bus d)).flatten).count
      BusEv.enable = l.length + 1
    rw [List.count_append, ih]
    simp [data_bus]
    omega

theorem wireBytes_data_bus_flatten (l : List Nat) :
    wireBytes ((l.map (fun d => data_bus d)).flatten) = l := by
  induction l with
  | nil => rfl
  | cons d l ih =>
    show wireBytes (data_bus d ++ (l.map (fun d => data_bus d)).flatten)
      = d :: l
    rw [wireBytes_append, ih]
    rfl

theorem count_enable_map_wbyte (ds : List Nat) :
    (ds.map BusEv.wbyte).count BusEv.enable = 0 := by
  induction ds with
  | nil => rfl
  | cons d ds ih =>
    rw [List.map_cons, List.count_cons, ih]
    simp

theorem primary_plane_eq (buffer : List Nat) :
    primary_plane_bus buffer
      = (((List.range ALLSCREEN_BYTES).map
          (fun i => inv8 (buffer.getD i 0))).map
            (fun d => data_bus d)).flatten := by
  unfold primary_plane_bus
  rw [List.map_map]
  rfl

/-! ### Claim theorems -/

/-- C1: in every write phase (`display_frame_`), the write-primary-RAM
command 0x24 is followed by exactly `(width * height) / 8 = 4736`
data bytes, the i-th being the 8-bit complement of the i-th
frame-buffer byte; after them the write-secondary-RAM command 0x26 is
followed by exactly `ALLSCREEN_BYTES` bytes of 0x00 — in that
order. -/
theorem c1_write_phase_planes (rc : Bool) (buffer : List Nat) :
    ALLSCREEN_BYTES = 4736 ∧
    ∃ t1, afterCmd 0x24 (display_frame_trace rc buffer) = some t1 ∧
      dataRun t1 = (List.range ALLSCREEN_BYTES).map
        (fun i => inv8 (buffer.getD i 0)) ∧
      (dataRun t1).length = ALLSCREEN_BYTES ∧
      ∃ t2, afterCmd 0x26 t1 = some t2 ∧
        dataRun t2 = List.replicate ALLSCREEN_BYTES 0x00 := by
  refine ⟨rfl, ?_⟩
  refine ⟨((List.range ALLSCREEN_BYTES).map
      (fun i => inv8 (buffer.getD i 0))).map Ev.dat
    ++ (Ev.cmd 0x4E :: Ev.dat 0x00 :: Ev.cmd 0x4F :: Ev.dat 0x00 ::
        Ev.dat 0x00 :: Ev.cmd 0x26 ::
        ((List.replicate ALLSCREEN_BYTES (0 : Nat)).map Ev.dat
          ++ (Ev.waitIdle :: full_update_trace))), ?_, ?_, ?_, ?_⟩
  · cases rc <;>
      simp [display_frame_trace, full_update_trace, afterCmd,
        List.map_map, Function.comp]
  · exact dataRun_map_dat _ _ _ (fun d => by simp)
  · rw [dataRun_map_dat _ _ _ (fun d => by simp)]
    simp
  · refine ⟨(List.replicate ALLSCREEN_BYTES (0 : Nat)).map Ev.dat
      ++ (Ev.waitIdle :: full_update_trace), ?_, ?_⟩
    · rw [afterCmd_append _ _ _ (hasCmd_map_dat _ _)]
      simp [afterCmd]
    · rw [dataRun_map_dat _ _ _ (fun d => by simp)]

/-- C2: the one-time configuration, captured as ordered (opcode,
payload) pairs, is exactly `initCapture` (software reset 0x12; driver
output control 0x01 with height-1 = 295 little-endian and mode byte;
data entry mode 0x11; RAM X window 0x44; RAM Y window 0x45; border
waveform 0x3C; temperature sensor 0x18; RAM counter resets 0x4E and
0x4F), and the configuration emitted by any run of `update()` calls
is always this same sequence (emitted only by the first call,
nothing by later calls). -/
theorem c2_one_time_config_sequence (rc bc : Bool)
    (d : List (Int × Int × Bool)) (ds : List (List (Int × Int × Bool))) :
    capturePairs (init_display_trace rc bc) = initCapture ∧
    0x27 + 256 * 0x01 = HEIGHT - 1 ∧
    (update rc bc d setupState).2.1 = init_display_trace rc bc ∧
    ∀ o ∈ (runUpdates rc bc (d :: ds) setupState).2,
      o.1 = init_display_trace rc bc ∨ o.1 = [] := by
  refine ⟨by cases rc <;> cases bc <;> rfl, rfl, ?_, ?_⟩
  · rw [update_of_not_configured rc bc d setupState rfl]
  · have hu := update_of_not_configured rc bc d setupState rfl
    have hstep : runUpdates rc bc (d :: ds) setupState
        = ((runUpdates rc bc ds
              { configured := true,
                buffer := applyDraws d setupState.buffer }).1,
           (init_display_trace rc bc,
            display_frame_trace rc (applyDraws d setupState.buffer)) ::
            (runUpdates rc bc ds
              { configured := true,
                buffer := applyDraws d setupState.buffer }).2) := by
      conv_lhs => rw [runUpdates]
      rw [hu]
    rw [hstep]
    intro o ho
    rcases List.mem_cons.mp ho with ho | ho
    · left
      rw [ho]
    · right
      exact (runUpdates_configured rc bc ds _ rfl).2.1 o ho

/-- C3: the configured flag is false after `setup()`, becomes true
during the first `update()` call and stays true; the one-time
configuration trace is emitted exactly once (by the first call,
before that call's write phase), while every call emits a complete
write-and-refresh trace. -/
theorem c3_configured_flag_lifecycle (rc bc : Bool)
    (d : List (Int × Int × Bool)) (ds : List (List (Int × Int × Bool))) :
    setupState.configured = false ∧
    (update rc bc d setupState).1.configured = true ∧
    (runUpdates rc bc (d :: ds) setupState).1.configured = true ∧
    (runUpdates rc bc (d :: ds) setupState).2.map Prod.fst
      = init_display_trace rc bc :: List.replicate ds.length [] ∧
    ∀ o ∈ (runUpdates rc bc (d :: ds) setupState).2,
      ∃ b, o.2 = display_frame_trace rc b := by
  have hu := update_of_not_configured rc bc d setupState rfl
  have hstep : runUpdates rc bc (d :: ds) setupState
      = ((runUpdates rc bc ds
            { configured := true,
              buffer := applyDraws d setupState.buffer }).1,
         (init_display_trace rc bc,
          display_frame_trace rc (applyDraws d setupState.buffer)) ::
          (runUpdates rc bc ds
            { configured := true,
              buffer := applyDraws d setupState.buffer }).2) := by
    conv_lhs => rw [runUpdates]
    rw [hu]
  obtain ⟨h1, h2, h3, h4⟩ := runUpdates_configured rc bc ds
    { configured := true, buffer := applyDraws d setupState.buffer } rfl
  refine ⟨rfl, by rw [hu], by rw [hstep]; exact h1, ?_, ?_⟩
  · rw [hstep]
    simp only [List.map_cons, h3]
  · rw [hstep]
    intro o ho
    rcases List.mem_cons.mp ho with ho | ho
    · exact ⟨_, by rw [ho]⟩
    · exact h4 o ho

/-- C4: for every in-bounds coordinate pair (0 ≤ x < 128,
0 ≤ y < 296), `draw_absolute_pixel_internal` sets or clears exactly
the bit at byte index `y * (width / 8) + x / 8` with mask
`0x80 >> (x mod 8)`, and reading that bit back via the same formula
(`get_pixel`) returns the value written. -/
theorem c4_pixel_addressing_roundtrip (buf : List Nat) (x y : Int) (c : Bool)
    (hlen : buf.length = ALLSCREEN_BYTES)
    (hx0 : 0 ≤ x) (hx : x < get_width_internal)
    (hy0 : 0 ≤ y) (hy : y < get_height_internal) :
    draw_absolute_pixel_internal buf x y c
      = buf.set (y.toNat * (WIDTH / 8) + x.toNat / 8)
          (if c then
            buf.getD (y.toNat * (WIDTH / 8) + x.toNat / 8) 0 |||
              128 >>> (x.toNat % 8)
           else
            buf.getD (y.toNat * (WIDTH / 8) + x.toNat / 8) 0 &&&
              (0xFF ^^^ 128 >>> (x.toNat % 8))) ∧
    get_pixel (draw_absolute_pixel_internal buf x y c) x y = c := by
  have hpos := pos_lt_bytes x y hx0 hx hy0 hy
  have heq := draw_eq_set buf x y c hx0 hx hy0 hy
  refine ⟨heq, ?_⟩
  rw [heq]
  unfold get_pixel
  rw [getD_set_self _ _ _ (by omega)]
  have hr : x.toNat % 8 < 8 := Nat.mod_lt _ (by omega)
  cases c with
  | true =>
    rw [if_pos rfl]
    exact decide_eq_true (mask_or_and_ne _ _ hr)
  | false =>
    rw [if_neg (by decide), mask_clear_and_eq _ _ hr]
    simp

/-- C4 witness: the three scenario points on the freshly constructed
buffer; `set_pixel(0,0,true)` targets byte 0 mask 0x80,
`set_pixel(7,0,true)` byte 0 mask 0x01, `set_pixel(8,0,true)` byte 1
mask 0x80, and each reads back as written. -/
theorem c4_pixel_addressing_roundtrip_witness :
    get_pixel (draw_absolute_pixel_internal
      (List.replicate ALLSCREEN_BYTES 0xFF) 0 0 true) 0 0 = true ∧
    get_pixel (draw_absolute_pixel_internal
      (List.replicate ALLSCREEN_BYTES 0xFF) 7 0 true) 7 0 = true ∧
    get_pixel (draw_absolute_pixel_internal
      (List.replicate ALLSCREEN_BYTES 0xFF) 8 0 true) 8 0 = true :=
  ⟨(c4_pixel_addressing_roundtrip _ 0 0 true (by simp)
      (by decide) (by decide) (by decide) (by decide)).2,
   (c4_pixel_addressing_roundtrip _ 7 0 true (by simp)
      (by decide) (by decide) (by decide) (by decide)).2,
   (c4_pixel_addressing_roundtrip _ 8 0 true (by simp)
      (by decide) (by decide) (by decide) (by decide)).2⟩

/-- C5: out-of-range coordinates are a silent no-op leaving every byte
of the buffer unchanged; in-range coordinates set or clear exactly
the addressed bit (index `y * (width / 8) + x / 8`, bit `7 - x mod 8`
counting from the least significant end, i.e. mask `0x80 >> (x mod
8)`) and leave every other bit of every byte unchanged. -/
theorem c5_no_op_and_single_bit (buf : List Nat) (x y : Int) (c : Bool)
    (hlen : buf.length = ALLSCREEN_BYTES)
    (hbytes : ∀ b ∈ buf, b < 256) :
    ((x < 0 ∨ get_width_internal ≤ x ∨ y < 0 ∨ get_height_internal ≤ y) →
      draw_absolute_pixel_internal buf x y c = buf) ∧
    (0 ≤ x → x < get_width_internal → 0 ≤ y → y < get_height_internal →
      (∀ j k : Nat,
        ¬(j = y.toNat * (WIDTH / 8) + x.toNat / 8 ∧ k = 7 - x.toNat % 8) →
        ((draw_absolute_pixel_internal buf x y c).getD j 0).testBit k
          = (buf.getD j 0).testBit k) ∧
      ((draw_absolute_pixel_internal buf x y c).getD
          (y.toNat * (WIDTH / 8) + x.toNat / 8) 0).testBit (7 - x.toNat % 8)
        = c) := by
  constructor
  · intro h
    unfold draw_absolute_pixel_internal
    rw [if_pos h]
  · intro hx0 hx hy0 hy
    have hpos := pos_lt_bytes x y hx0 hx hy0 hy
    have heq := draw_eq_set buf x y c hx0 hx hy0 hy
    have hr : x.toNat % 8 < 8 := Nat.mod_lt _ (by omega)
    have hb : buf.getD (y.toNat * (WIDTH / 8) + x.toNat / 8) 0 < 256 :=
      hbytes _ (getD_mem_of_lt _ _ (by omega))
    constructor
    · intro j k hjk
      rw [heq]
      by_cases hj : j = y.toNat * (WIDTH / 8) + x.toNat / 8
      · subst hj
        have hk : ¬(k = 7 - x.toNat % 8) := fun h => hjk ⟨rfl, h⟩
        rw [getD_set_self _ _ _ (by omega)]
        cases c with
        | true =>
          rw [if_pos rfl, set_testBit _ _ _ hr, if_neg hk]
        | false =>
          rw [if_neg (by decide), clear_testBit _ _ _ hr ?hblt, if_neg hk]
          case hblt => exact hb
      · rw [getD_set_ne _ _ _ _ (fun h => hj h.symm)]
    · rw [heq, getD_set_self _ _ _ (by omega)]
      cases c with
      | true =>
        rw [if_pos rfl, set_testBit _ _ _ hr, if_pos rfl]
      | false =>
        rw [if_neg (by decide), clear_testBit _ _ _ hr ?hblt2, if_pos rfl]
        case hblt2 => exact hb

/-- C5 witness: on the freshly constructed buffer, the out-of-range
call at x = -1 leaves the buffer unchanged. -/
theorem c5_no_op_and_single_bit_witness :
    draw_absolute_pixel_internal
      (List.replicate ALLSCREEN_BYTES 0xFF) (-1) 0 true
      = List.replicate ALLSCREEN_BYTES 0xFF :=
  (c5_no_op_and_single_bit _ (-1) 0 true (by simp)
    (fun b hb => by rw [List.eq_of_mem_replicate hb]; omega)).1
    (Or.inl (by decide))

/-- C6: `wait_until_idle_` terminates for every busy input (it is a
total function): with no busy line it returns after the fixed 100 ms
delay, and with a busy line that always reads busy it polls at the
10 ms cadence and returns normally once the elapsed time (10010 ms)
exceeds the 10000 ms timeout. -/
theorem c6_wait_until_idle_terminates (busy : Nat → Bool) :
    wait_until_idle_ none = { elapsedMs := 100, timedOut := false } ∧
    ((∀ t, busy t = true) →
      wait_until_idle_ (some busy)
        = { elapsedMs := 10010, timedOut := true }) := by
  refine ⟨rfl, fun h => ?_⟩
  show waitLoop busy 0 = _
  exact waitLoop_busy_forever busy h 10010 0 rfl rfl (by omega)

/-- C6 witness: the constant-busy line, concretely. -/
theorem c6_wait_until_idle_terminates_witness :
    wait_until_idle_ (some (fun _ => true))
      = { elapsedMs := 10010, timedOut := true } :=
  (c6_wait_until_idle_terminates (fun _ => true)).2 (fun _ => rfl)

/-- C9 counterexample: the primary bit-plane transfer asserts the
chip-select 4736 times (one scoped transaction per byte), not once as
a single scoped transaction would. -/
theorem c9_counterexample_per_byte :
    (primary_plane_bus (List.replicate ALLSCREEN_BYTES 0xFF)).count
      BusEv.enable = 4736 ∧ (4736 : Nat) ≠ 1 := by
  refine ⟨?_, by omega⟩
  rw [primary_plane_eq, count_enable_data_bus_flatten]
  simp
  rfl

/-- C9 (amended): the primary bit-plane transfer streams all
`ALLSCREEN_BYTES` inverted frame-buffer bytes, but as
`ALLSCREEN_BYTES` single-byte scoped transactions (one enable/disable
pair per byte, via `data_`), not as one block transaction; the unused
block primitive `send_data_` is the one that frames a whole sequence
in a single transaction. -/
theorem c9_bulk_transfer_amended (buffer : List Nat) :
    wireBytes (primary_plane_bus buffer)
      = (List.range ALLSCREEN_BYTES).map (fun i => inv8 (buffer.getD i 0)) ∧
    (primary_plane_bus buffer).count BusEv.enable = ALLSCREEN_BYTES ∧
    ∀ ds : List Nat, (send_data_bus ds).count BusEv.enable = 1 := by
  refine ⟨?_, ?_, ?_⟩
  · rw [primary_plane_eq, wireBytes_data_bus_flatten]
  · rw [primary_plane_eq, count_enable_data_bus_flatten]
    simp
  · intro ds
    unfold send_data_bus
    rw [List.count_append, List.count_append, count_enable_map_wbyte]
    rfl

/-- C8 counterexample: after `setup()` every buffer byte is 0xFF —
bit 7 of byte 0 (and every other bit) is SET, not clear as the claim
states. -/
theorem c8_counterexample_byte_set :
    setupState.buffer.getD 0 0 = 0xFF ∧
    Nat.testBit (setupState.buffer.getD 0 0) 7 = true := by
  exact ⟨rfl, rfl⟩

/-- C8 (amended): after `setup()` the frame buffer has length exactly
`(width * height) / 8 = 4736` and every byte holds 0xFF (every bit
set — the value whose transfer-time bit-inversion produces the
physical background); the buffer length never changes over any
sequence of `update()` calls. -/
theorem c8_buffer_allocation_amended (rc bc : Bool)
    (draws : List (List (Int × Int × Bool))) :
    setupState.buffer.length = ALLSCREEN_BYTES ∧
    ALLSCREEN_BYTES = 4736 ∧
    (∀ b ∈ setupState.buffer, b = 0xFF) ∧
    (runUpdates rc bc draws setupState).1.buffer.length = ALLSCREEN_BYTES := by
  refine ⟨by simp [setupState], rfl,
    fun b hb => List.eq_of_mem_replicate hb, ?_⟩
  rw [runUpdates_buffer_length]
  simp [setupState]

/-- C7 counterexample: in the per-update write phase
(`display_frame_`) the reset line receives exactly TWO logical-level
writes, not the three (high, low, high) the claim states. -/
theorem c7_counterexample_two_writes :
    (resetWrites (display_frame_trace true
        (List.replicate ALLSCREEN_BYTES 0xFF))).length = 2 ∧
    resetWrites (display_frame_trace true
        (List.replicate ALLSCREEN_BYTES 0xFF)) ≠ [true, false, true] := by
  rw [resetWrites_frame_true]
  exact ⟨rfl, by simp⟩

/-- C7 (amended): at the start of every per-update write phase, with a
reset line configured, the driver performs exactly two reset-line
writes — low then high — each followed by a 10 ms hold (the line was
already high beforehand, so the level sequence seen by the chip is
high, low, high); no other reset write occurs in the write phase. -/
theorem c7_reset_pulse_amended (buffer : List Nat) :
    display_frame_trace true buffer
      = [Ev.rst false, Ev.delayMs 10, Ev.rst true, Ev.delayMs 10]
        ++ display_frame_trace false buffer ∧
    resetWrites (display_frame_trace true buffer) = [false, true] ∧
    resetWrites (display_frame_trace false buffer) = [] :=
  ⟨frame_true_split buffer, resetWrites_frame_true buffer,
   resetWrites_frame_false buffer⟩

/-- C10: for every integer coordinate pair, including negative values,
and every color, the pixel-set operation either leaves the buffer
untouched or writes a single byte index strictly below
`ALLSCREEN_BYTES = (width * height) / 8`; no access is out of
bounds. -/
theorem c10_no_out_of_bounds_write (buf : List Nat) (x y : Int) (c : Bool) :
    draw_absolute_pixel_internal buf x y c = buf ∨
    ∃ pos v, pos < ALLSCREEN_BYTES ∧
      draw_absolute_pixel_internal buf x y c = buf.set pos v := by
  by_cases h : x < 0 ∨ get_width_internal ≤ x ∨ y < 0 ∨ get_height_internal ≤ y
  · left
    unfold draw_absolute_pixel_internal
    rw [if_pos h]
  · right
    push_neg at h
    obtain ⟨hx0, hx, hy0, hy⟩ := h
    exact ⟨_, _, pos_lt_bytes x y hx0 hx hy0 hy,
      draw_eq_set buf x y c hx0 hx hy0 hy⟩

end Ssd1680
